import Mathlib

/-!
Shallow embedding of `kol/geometry.py` (geometric and rigid-body utility
functions) and verification of its specification.

Numeric model: the Python code computes with IEEE float64.  The exact
arithmetic of the same operations is modelled over `ℚ` for the purely
rational functions (mesh combination, scaling, dynamics aggregation,
inertia moments) and over `ℝ` for the trigonometric ones (Euler angles,
roll/pitch/yaw transforms).  A Python `raise` is modelled as
`Except.error`; a normal `return` as `Except.ok` (functions that cannot
raise are given plain types).
-/

/-- 3-vectors (numpy arrays of shape `(3,)`), with exact arithmetic. -/
abbrev Vec3 : Type := Fin 3 → ℚ

/-- A triangular face: a triple of indices into a point list. -/
abbrev Face : Type := Nat × Nat × Nat

/-- `kol.mesh.Mesh`: a point list plus triangular faces. -/
structure Mesh where
  points : List Vec3
  faces : List Face
deriving DecidableEq

/-- Pointwise division of a vector by a scalar (numpy broadcasting `v / c`). -/
def vdiv (v : Vec3) (c : ℚ) : Vec3 := fun i => v i / c

/-- `np.dot` on 3-vectors. -/
def dot (a b : Vec3) : ℚ := a 0 * b 0 + a 1 * b 1 + a 2 * b 2

/-- `np.cross` on 3-vectors. -/
def cross (a b : Vec3) : Vec3 :=
  ![a 1 * b 2 - a 2 * b 1, a 2 * b 0 - a 0 * b 2, a 0 * b 1 - a 1 * b 0]

/-- One iteration of the loop in `get_center_of_mass`: accumulates
`(total_volume, center_of_mass)` over one triangle. -/
def comStep (m : Mesh) (acc : ℚ × Vec3) (f : Face) : ℚ × Vec3 :=
  let p0 := m.points.getD f.1 0
  let p1 := m.points.getD f.2.1 0
  let p2 := m.points.getD f.2.2 0
  let volume := dot p0 (cross p1 p2) / 6
  let centroid := vdiv (p0 + p1 + p2) 4
  (acc.1 + volume, acc.2 + volume • centroid)

/-- The `total_volume` accumulator of `get_center_of_mass` after the loop. -/
def totalVolume (m : Mesh) : ℚ := (m.faces.foldl (comStep m) (0, 0)).1

/-- The final value computed by `get_center_of_mass`: the accumulated
weighted centroid divided by the total signed volume.  Rational division is
total (`x / 0 = 0`); the float code at the same point divides by `0.0`,
producing a non-finite value. -/
def get_center_of_mass_val (m : Mesh) : Vec3 :=
  let acc := m.faces.foldl (comStep m) (0, 0)
  vdiv acc.2 acc.1

/-- Embedding of `get_center_of_mass`.  The source contains no `raise` and
returns the quotient unconditionally, so the embedding always returns
`Except.ok`. -/
def get_center_of_mass (m : Mesh) : Except String Vec3 :=
  .ok (get_center_of_mass_val m)

/-- The pivot expression of `scale_mesh` (source line
`com = (0.0, 0.0, 0.0) if about_origin else get_center_of_mass(mesh)`):
when `about_origin` is set the center-of-mass computation is not evaluated. -/
def scale_mesh_pivot (mesh : Mesh) (about_origin : Bool) : Except String Vec3 :=
  if about_origin then .ok 0 else get_center_of_mass mesh

/-- Embedding of `scale_mesh`. -/
def scale_mesh (mesh : Mesh) (scale : ℚ) (about_origin : Bool := false) :
    Except String Mesh :=
  if scale ≤ 0 then .error "Scaling should be greater than 0."
  else do
    let com ← scale_mesh_pivot mesh about_origin
    .ok ⟨mesh.points.map (fun p => fun i => (p i - com i) * scale + com i),
         mesh.faces⟩

/-- Matrix entry access `t[i][j]` on a raw (possibly ragged) numeric array. -/
def entry (t : List (List ℚ)) (i j : Nat) : ℚ := (t.getD i []).getD j 0

/-- Shape check `transform.shape == (4, 4)` on a raw array. -/
def is4x4 (t : List (List ℚ)) : Bool :=
  t.length == 4 && t.all (fun r => r.length == 4)

/-- Embedding of `apply_transform`: append a homogeneous 1, right-multiply by
the transpose of the matrix, drop the homogeneous coordinate.  Componentwise
this sends `p` to `i ↦ Σ_j T[i][j]·p[j] + T[i][3]`. -/
def apply_transform (points : List Vec3) (transform : List (List ℚ)) :
    List Vec3 :=
  points.map (fun p => fun i =>
    entry transform i 0 * p 0 + entry transform i 1 * p 1 +
      entry transform i 2 * p 2 + entry transform i 3)

/-- Offsets one face's indices by `n` (numpy `faces + n`). -/
def offsetFace (n : Nat) (f : Face) : Face := (f.1 + n, f.2.1 + n, f.2.2 + n)

/-- Embedding of `combine_meshes`. -/
def combine_meshes (parent_mesh child_mesh : Mesh)
    (relative_transform : List (List ℚ)) : Except String Mesh :=
  if is4x4 relative_transform then
    .ok ⟨parent_mesh.points ++ apply_transform child_mesh.points relative_transform,
         parent_mesh.faces ++
           child_mesh.faces.map (offsetFace parent_mesh.points.length)⟩
  else .error "relative_transform must be a 4x4 numpy array"

/-- 3×3 matrices over the exact numeric model. -/
abbrev Mat3 := Matrix (Fin 3) (Fin 3) ℚ

/-- `kol.geometry.Dynamics`: mass, center of mass, inertia about that COM. -/
structure Dynamics where
  mass : ℚ
  com : Vec3
  inertia : Mat3

/-- The outer product `p.T * p` of a row vector `p = np.matrix(r)`. -/
def outer (r : Vec3) : Mat3 := Matrix.of fun i j => r i * r j

/-- Embedding of `combine_dynamics`: two accumulation loops and the
conditional COM normalisation, exactly as in the source. -/
def combine_dynamics (dynamics : List Dynamics) : Dynamics :=
  let mass := dynamics.foldl (fun acc d => acc + d.mass) 0
  let com0 := dynamics.foldl (fun acc d => acc + d.mass • d.com) (0 : Vec3)
  let com := if 0 < mass then vdiv com0 mass else com0
  let inertia := dynamics.foldl
    (fun acc d =>
      acc + d.inertia +
        d.mass • (dot (d.com - com) (d.com - com) • (1 : Mat3) -
          outer (d.com - com)))
    (0 : Mat3)
  ⟨mass, com, inertia⟩

/-- The six moment fields extracted by `matrix_to_moments` (the source
stringifies each entry; the numeric payload is modelled). -/
structure Moments where
  ixx : ℚ
  ixy : ℚ
  ixz : ℚ
  iyy : ℚ
  iyz : ℚ
  izz : ℚ

/-- Embedding of `matrix_to_moments`. -/
def matrix_to_moments (matrix : Mat3) : Moments :=
  ⟨matrix 0 0, matrix 0 1, matrix 0 2, matrix 1 1, matrix 1 2, matrix 2 2⟩

/-- `np.array(inertia).reshape(3, 3)` on a flat row-major list of 9 entries. -/
def reshape3 (l : List ℚ) : Mat3 :=
  Matrix.of fun i j => l.getD (3 * i.val + j.val) 0

/-- Embedding of `transform_inertia_tensor`: reshape the input to 3×3 and
conjugate, `rotation.T @ inertia_matrix @ rotation`. -/
def transform_inertia_tensor (inertia : List ℚ) (rotation : Mat3) : Mat3 :=
  rotation.transpose * reshape3 inertia * rotation

/-- Row-major flattening of a 3×3 matrix (how a matrix argument is seen by
`np.array(...).reshape(3, 3)`). -/
def flatten3 (m : Mat3) : List ℚ :=
  [m 0 0, m 0 1, m 0 2, m 1 0, m 1 1, m 1 2, m 2 0, m 2 1, m 2 2]

/-- Whether an embedded call returned normally (`Except.ok`). -/
def isOk {α : Type} (e : Except String α) : Bool :=
  match e with
  | .ok _ => true
  | .error _ => false

/-- The mesh with no points and no faces. -/
def emptyMesh : Mesh := ⟨[], []⟩

/-- A single-triangle mesh (the worked example from the specification). -/
def triMesh : Mesh := ⟨[![0, 0, 0], ![1, 0, 0], ![0, 1, 0]], [(0, 1, 2)]⟩

/-- The 4×4 identity transform as a raw array argument. -/
def id4 : List (List ℚ) :=
  [[1, 0, 0, 0], [0, 1, 0, 0], [0, 0, 1, 0], [0, 0, 0, 1]]

/-- Folding `acc + f x` over a list adds the sum of the mapped list. -/
theorem foldl_add_map {M α : Type} [AddCommMonoid M] (f : α → M)
    (l : List α) (init : M) :
    l.foldl (fun a x => a + f x) init = init + (l.map f).sum := by
  induction l generalizing init with
  | nil => simp
  | cons x xs ih => simp [ih, add_assoc]

/-- C9: `matrix_to_moments` returns the record of the six independent
upper-triangular entries `I[0,0], I[0,1], I[0,2], I[1,1], I[1,2], I[2,2]`
in the fields `ixx, ixy, ixz, iyy, iyz, izz`. -/
theorem matrix_to_moments_correct (I : Mat3) :
    matrix_to_moments I =
      ⟨I 0 0, I 0 1, I 0 2, I 1 1, I 1 2, I 2 2⟩ := rfl

/-- C8: `transform_inertia_tensor` applied to an inertia tensor (given as a
3×3 matrix, equivalently as the flat row-major list of its 9 entries) and a
rotation `R` returns exactly `Rᵀ * I * R`. -/
theorem transform_inertia_tensor_correct (I R : Mat3) :
    transform_inertia_tensor (flatten3 I) R = R.transpose * I * R := by
  have h : reshape3 (flatten3 I) = I := by
    ext i j
    fin_cases i <;> fin_cases j <;> rfl
  rw [transform_inertia_tensor, h]

/-- C3: `combine_meshes` errors if and only if the transform argument is not
4×4; otherwise the result's points are the parent's points followed by the
transformed child points, its faces are the parent's faces followed by the
child's faces offset by `len(parent.points)`, and the point and face counts
add up. -/
theorem combine_meshes_correct (parent child : Mesh) (t : List (List ℚ)) :
    (isOk (combine_meshes parent child t) = false ↔ ¬ is4x4 t = true) ∧
    (is4x4 t = true →
      combine_meshes parent child t =
        .ok ⟨parent.points ++ apply_transform child.points t,
             parent.faces ++
               child.faces.map (offsetFace parent.points.length)⟩ ∧
      ∃ m, combine_meshes parent child t = .ok m ∧
        m.points.length = parent.points.length + child.points.length ∧
        m.faces.length = parent.faces.length + child.faces.length) := by
  by_cases h : is4x4 t = true
  · refine ⟨by simp [combine_meshes, h, isOk], fun _ => ⟨by simp [combine_meshes, h], ?_⟩⟩
    refine ⟨⟨parent.points ++ apply_transform child.points t,
             parent.faces ++ child.faces.map (offsetFace parent.points.length)⟩,
           by simp [combine_meshes, h], ?_, ?_⟩
    · simp [apply_transform]
    · simp
  · exact ⟨by simp [combine_meshes, h, isOk], fun h4 => absurd h4 h⟩

/-- Witness for C3 at the specification's worked example: a one-triangle
parent, an identical child, and the identity transform. -/
theorem combine_meshes_correct_witness :
    is4x4 id4 = true ∧
    (combine_meshes triMesh triMesh id4 =
      .ok ⟨triMesh.points ++ apply_transform triMesh.points id4,
           triMesh.faces ++
             triMesh.faces.map (offsetFace triMesh.points.length)⟩ ∧
    ∃ m, combine_meshes triMesh triMesh id4 = .ok m ∧
      m.points.length = triMesh.points.length + triMesh.points.length ∧
      m.faces.length = triMesh.faces.length + triMesh.faces.length) := by
  have h : is4x4 id4 = true := by decide
  exact ⟨h, (combine_meshes_correct triMesh triMesh id4).2 h⟩

/-- C2 counterexample: the mesh with no faces has zero total signed volume,
yet `get_center_of_mass` returns normally (`Except.ok`) instead of reporting
an error — the division by the zero total volume is performed unguarded
(under IEEE arithmetic it yields a non-finite value). -/
theorem get_center_of_mass_zero_volume_counterexample :
    totalVolume emptyMesh = 0 ∧
    isOk (get_center_of_mass emptyMesh) = true := by
  exact ⟨rfl, rfl⟩

/-- C2 amended: on every mesh whose signed tetrahedron volumes sum to zero,
`get_center_of_mass` raises no error; it divides the accumulated weighted
centroid by the zero total volume and returns the quotient to the caller
(a non-finite value under IEEE float semantics). -/
theorem get_center_of_mass_zero_volume_no_error (m : Mesh)
    (h : totalVolume m = 0) :
    get_center_of_mass m =
      .ok (vdiv (m.faces.foldl (comStep m) (0, 0)).2 0) := by
  rw [get_center_of_mass, get_center_of_mass_val]
  rw [totalVolume] at h
  rw [h]

/-- Witness for the amended C2 theorem at the empty mesh. -/
theorem get_center_of_mass_zero_volume_no_error_witness :
    totalVolume emptyMesh = 0 ∧
    get_center_of_mass emptyMesh =
      .ok (vdiv (emptyMesh.faces.foldl (comStep emptyMesh) (0, 0)).2 0) :=
  ⟨rfl, get_center_of_mass_zero_volume_no_error emptyMesh rfl⟩

/-- C7: `scale_mesh` errors exactly when `scale ≤ 0`; for positive scale it
returns the points moved by `(p - pivot) * scale + pivot` where the pivot is
the origin when `about_origin` is set and the volumetric center of mass
otherwise, with the faces unchanged. -/
theorem scale_mesh_correct (m : Mesh) (scale : ℚ) (ao : Bool) :
    (isOk (scale_mesh m scale ao) = false ↔ scale ≤ 0) ∧
    (0 < scale →
      scale_mesh m scale ao =
        .ok ⟨m.points.map (fun p => fun i =>
               (p i - (if ao then 0 else get_center_of_mass_val m) i) * scale +
                 (if ao then 0 else get_center_of_mass_val m) i),
             m.faces⟩) := by
  constructor
  · by_cases h : scale ≤ 0
    · simp [scale_mesh, h, isOk]
    · have hok : isOk (scale_mesh m scale ao) = true := by
        rw [scale_mesh, if_neg h]
        cases ao <;> rfl
      simp [hok, h]
  · intro hpos
    have h : ¬ scale ≤ 0 := not_le.mpr hpos
    rw [scale_mesh, if_neg h]
    cases ao <;> rfl

/-- Witness for C7 at the specification's example: scaling the two points
`(1,0,0)` and `(0,1,0)` by 2 about the origin. -/
theorem scale_mesh_correct_witness :
    (0 : ℚ) < 2 ∧
    (scale_mesh ⟨[![1, 0, 0], ![0, 1, 0]], []⟩ 2 true =
      .ok ⟨([![1, 0, 0], ![0, 1, 0]] : List Vec3).map (fun p => fun i =>
              (p i - (if true then 0 else
                get_center_of_mass_val ⟨[![1, 0, 0], ![0, 1, 0]], []⟩) i) * 2 +
                (if true then 0 else
                  get_center_of_mass_val ⟨[![1, 0, 0], ![0, 1, 0]], []⟩) i),
            []⟩) ∧
    scale_mesh ⟨[![1, 0, 0], ![0, 1, 0]], []⟩ 2 true =
      .ok ⟨[![2, 0, 0], ![0, 2, 0]], []⟩ ∧
    isOk (scale_mesh ⟨[![1, 0, 0], ![0, 1, 0]], []⟩ (-1) true) = false := by
  have h2 : (0 : ℚ) < 2 := by norm_num
  have hmain := (scale_mesh_correct ⟨[![1, 0, 0], ![0, 1, 0]], []⟩ 2 true).2 h2
  refine ⟨h2, hmain, ?_, ?_⟩
  · rw [hmain]
    congr 1
    simp only [List.map_cons, List.map_nil, Mesh.mk.injEq, List.cons.injEq,
      and_true]
    refine ⟨?_, ?_⟩ <;> (funext i; fin_cases i <;> norm_num)
  · exact ((scale_mesh_correct ⟨[![1, 0, 0], ![0, 1, 0]], []⟩ (-1) true).1).mpr
      (by norm_num)

/-- C10: with `about_origin` set and a positive scale, `scale_mesh` succeeds
even on a mesh whose signed tetrahedron volumes sum to zero: the pivot
expression short-circuits to the origin without evaluating the volumetric
center of mass, so the zero-volume division is unreachable — whereas the
default path's pivot is exactly the value of `get_center_of_mass`. -/
theorem scale_mesh_about_origin_safe (m : Mesh) (scale : ℚ)
    (hs : 0 < scale) (hv : totalVolume m = 0) :
    isOk (scale_mesh m scale true) = true ∧
    scale_mesh_pivot m true = .ok 0 ∧
    scale_mesh_pivot m false = get_center_of_mass m := by
  have h : ¬ scale ≤ 0 := not_le.mpr hs
  exact ⟨by rw [scale_mesh, if_neg h]; rfl, rfl, rfl⟩

/-- Witness for C10 at the empty (zero-volume) mesh with scale 1. -/
theorem scale_mesh_about_origin_safe_witness :
    ((0 : ℚ) < 1 ∧ totalVolume emptyMesh = 0) ∧
    (isOk (scale_mesh emptyMesh 1 true) = true ∧
     scale_mesh_pivot emptyMesh true = .ok 0 ∧
     scale_mesh_pivot emptyMesh false = get_center_of_mass emptyMesh) :=
  ⟨⟨by norm_num, rfl⟩, scale_mesh_about_origin_safe emptyMesh 1 (by norm_num) rfl⟩

/-- The mass accumulated by the first loop of `combine_dynamics`. -/
theorem combine_dynamics_mass_fold (l : List Dynamics) :
    l.foldl (fun acc d => acc + d.mass) 0 = (l.map Dynamics.mass).sum := by
  rw [foldl_add_map Dynamics.mass l 0, zero_add]

/-- The weighted-COM sum accumulated by the first loop of
`combine_dynamics`. -/
theorem combine_dynamics_com_fold (l : List Dynamics) :
    l.foldl (fun acc d => acc + d.mass • d.com) (0 : Vec3) =
      (l.map fun d => d.mass • d.com).sum := by
  rw [foldl_add_map (fun d => d.mass • d.com) l 0, zero_add]

/-- The inertia accumulated by the second loop of `combine_dynamics`, for an
arbitrary already-fixed combined COM `c`. -/
theorem combine_dynamics_inertia_fold (l : List Dynamics) (c : Vec3) :
    l.foldl
      (fun acc d =>
        acc + d.inertia +
          d.mass • (dot (d.com - c) (d.com - c) • (1 : Mat3) -
            outer (d.com - c)))
      (0 : Mat3) =
      (l.map fun d =>
        d.inertia +
          d.mass • (dot (d.com - c) (d.com - c) • (1 : Mat3) -
            outer (d.com - c))).sum := by
  have he :
      (fun (acc : Mat3) (d : Dynamics) =>
        acc + d.inertia +
          d.mass • (dot (d.com - c) (d.com - c) • (1 : Mat3) -
            outer (d.com - c))) =
      fun (acc : Mat3) (d : Dynamics) =>
        acc + (d.inertia +
          d.mass • (dot (d.com - c) (d.com - c) • (1 : Mat3) -
            outer (d.com - c))) := by
    funext acc d
    rw [add_assoc]
  rw [he,
    foldl_add_map
      (fun d =>
        d.inertia +
          d.mass • (dot (d.com - c) (d.com - c) • (1 : Mat3) -
            outer (d.com - c)))
      l 0,
    zero_add]

/-- With nonnegative masses, a zero (hence all-zero) total mass forces the
weighted-COM sum to vanish. -/
theorem weighted_com_sum_eq_zero (l : List Dynamics)
    (h : ∀ d ∈ l, 0 ≤ d.mass) (hs : (l.map Dynamics.mass).sum ≤ 0) :
    (l.map fun d => d.mass • d.com).sum = 0 := by
  induction l with
  | nil => simp
  | cons x xs ih =>
    simp only [List.map_cons, List.sum_cons] at hs ⊢
    have hx : 0 ≤ x.mass := h x (List.mem_cons_self x xs)
    have hxs : 0 ≤ (xs.map Dynamics.mass).sum := by
      refine List.sum_nonneg ?_
      intro a ha
      rcases List.mem_map.mp ha with ⟨d, hd, rfl⟩
      exact h d (List.mem_cons_of_mem x hd)
    have hx0 : x.mass = 0 := le_antisymm (by linarith) hx
    rw [hx0, zero_smul, zero_add]
    exact ih (fun d hd => h d (List.mem_cons_of_mem x hd)) (by linarith)

/-- The COM produced by `combine_dynamics`, before using nonnegativity of
the masses: the weighted sum, normalised only when the total mass is
positive. -/
theorem combine_dynamics_com_raw (l : List Dynamics) :
    (combine_dynamics l).com =
      (if 0 < (l.map Dynamics.mass).sum then
        vdiv (l.map fun d => d.mass • d.com).sum (l.map Dynamics.mass).sum
      else (l.map fun d => d.mass • d.com).sum) := by
  simp only [combine_dynamics, combine_dynamics_mass_fold,
    combine_dynamics_com_fold]

/-- C1: `combine_dynamics` returns the summed mass; the mass-weighted
average COM when the total mass is positive and the zero vector otherwise;
and the summed parallel-axis inertia
`Σ (I_i + m_i ((r_i·r_i)·1 − r_i r_iᵀ))` with `r_i` taken from the combined
COM; the empty list gives mass 0, COM at the origin and zero inertia. -/
theorem combine_dynamics_correct (l : List Dynamics)
    (h : ∀ d ∈ l, 0 ≤ d.mass) :
    (combine_dynamics l).mass = (l.map Dynamics.mass).sum ∧
    (combine_dynamics l).com =
      (if 0 < (l.map Dynamics.mass).sum then
        vdiv (l.map fun d => d.mass • d.com).sum (l.map Dynamics.mass).sum
      else 0) ∧
    (combine_dynamics l).inertia =
      (l.map fun d =>
        d.inertia +
          d.mass •
            (dot (d.com - (combine_dynamics l).com)
                (d.com - (combine_dynamics l).com) • (1 : Mat3) -
              outer (d.com - (combine_dynamics l).com))).sum ∧
    combine_dynamics [] = ⟨0, 0, 0⟩ := by
  refine ⟨?_, ?_, ?_, ?_⟩
  · simp only [combine_dynamics, combine_dynamics_mass_fold]
  · rw [combine_dynamics_com_raw]
    by_cases hpos : 0 < (l.map Dynamics.mass).sum
    · rw [if_pos hpos, if_pos hpos]
    · rw [if_neg hpos, if_neg hpos,
        weighted_com_sum_eq_zero l h (not_lt.mp hpos)]
  · conv_rhs => rw [combine_dynamics_com_raw]
    simp only [combine_dynamics, combine_dynamics_mass_fold,
      combine_dynamics_com_fold, combine_dynamics_inertia_fold]
  · rfl

/-- Dynamics of two unit point masses on the x-axis (the specification's
worked example for the parallel-axis aggregation). -/
def twoPointMasses : List Dynamics :=
  [⟨1, ![-1, 0, 0], 0⟩, ⟨1, ![1, 0, 0], 0⟩]

/-- Witness for C1 at the two-point-mass example. -/
theorem combine_dynamics_correct_witness :
    (∀ d ∈ twoPointMasses, 0 ≤ d.mass) ∧
    ((combine_dynamics twoPointMasses).mass =
        (twoPointMasses.map Dynamics.mass).sum ∧
     (combine_dynamics twoPointMasses).com =
       (if 0 < (twoPointMasses.map Dynamics.mass).sum then
         vdiv (twoPointMasses.map fun d => d.mass • d.com).sum
           (twoPointMasses.map Dynamics.mass).sum
       else 0) ∧
     (combine_dynamics twoPointMasses).inertia =
       (twoPointMasses.map fun d =>
         d.inertia +
           d.mass •
             (dot (d.com - (combine_dynamics twoPointMasses).com)
                 (d.com - (combine_dynamics twoPointMasses).com) • (1 : Mat3) -
               outer (d.com - (combine_dynamics twoPointMasses).com))).sum ∧
     combine_dynamics [] = ⟨0, 0, 0⟩) := by
  have h : ∀ d ∈ twoPointMasses, 0 ≤ d.mass := by
    intro d hd
    simp only [twoPointMasses, List.mem_cons, List.not_mem_nil,
      or_false] at hd
    rcases hd with rfl | rfl <;> norm_num
  exact ⟨h, combine_dynamics_correct twoPointMasses h⟩

/-- `math.atan2 y x`: the argument of the complex number `x + i·y`, in
`(-π, π]`, with `atan2 0 0 = 0` — the C/Python library convention. -/
noncomputable def atan2 (y x : ℝ) : ℝ := Complex.arg ⟨x, y⟩

/-- Embedding of `rotation_matrix_to_euler_angles`. -/
noncomputable def rotation_matrix_to_euler_angles
    (rotation_matrix : Matrix (Fin 3) (Fin 3) ℝ) : ℝ × ℝ × ℝ :=
  let sy := Real.sqrt (rotation_matrix 0 0 * rotation_matrix 0 0 +
    rotation_matrix 1 0 * rotation_matrix 1 0)
  if sy < 1e-6 then
    (atan2 (-(rotation_matrix 1 2)) (rotation_matrix 1 1),
     atan2 (-(rotation_matrix 2 0)) sy,
     0)
  else
    (atan2 (rotation_matrix 2 1) (rotation_matrix 2 2),
     atan2 (-(rotation_matrix 2 0)) sy,
     atan2 (rotation_matrix 1 0) (rotation_matrix 0 0))

/-- The `translation` matrix built by `origin_and_rpy_to_transform`. -/
def translationM (v : Fin 3 → ℝ) : Matrix (Fin 4) (Fin 4) ℝ :=
  !![1, 0, 0, v 0;
     0, 1, 0, v 1;
     0, 0, 1, v 2;
     0, 0, 0, 1]

/-- The `roll` rotation matrix (about the x-axis) built by
`origin_and_rpy_to_transform`. -/
noncomputable def rollM (a : ℝ) : Matrix (Fin 4) (Fin 4) ℝ :=
  !![1, 0, 0, 0;
     0, Real.cos a, -Real.sin a, 0;
     0, Real.sin a, Real.cos a, 0;
     0, 0, 0, 1]

/-- The `pitch` rotation matrix (about the y-axis). -/
noncomputable def pitchM (a : ℝ) : Matrix (Fin 4) (Fin 4) ℝ :=
  !![Real.cos a, 0, Real.sin a, 0;
     0, 1, 0, 0;
     -Real.sin a, 0, Real.cos a, 0;
     0, 0, 0, 1]

/-- The `yaw` rotation matrix (about the z-axis). -/
noncomputable def yawM (a : ℝ) : Matrix (Fin 4) (Fin 4) ℝ :=
  !![Real.cos a, -Real.sin a, 0, 0;
     Real.sin a, Real.cos a, 0, 0;
     0, 0, 1, 0;
     0, 0, 0, 1]

/-- Embedding of `origin_and_rpy_to_transform`:
`translation @ (yaw @ (pitch @ roll))`.  The two shape checks of the source
are statically satisfied by the typed 3-vector arguments. -/
noncomputable def origin_and_rpy_to_transform
    (relative_origin relative_rpy : Fin 3 → ℝ) : Matrix (Fin 4) (Fin 4) ℝ :=
  translationM relative_origin *
    (yawM (relative_rpy 2) * (pitchM (relative_rpy 1) * rollM (relative_rpy 0)))

/-- Embedding of `inv_tf`: `np.linalg.inv`, the true matrix inverse. -/
noncomputable def inv_tf (a_to_b_tf : Matrix (Fin 4) (Fin 4) ℝ) :
    Matrix (Fin 4) (Fin 4) ℝ := a_to_b_tf⁻¹

/-- C4: the Euler extraction computes `sy = sqrt(R00² + R10²)` and branches
on `sy < 1e-6`: the singular branch returns
`(atan2(-R12, R11), atan2(-R20, sy), 0)`, the regular branch
`(atan2(R21, R22), atan2(-R20, sy), atan2(R10, R00))`. -/
theorem rotation_matrix_to_euler_angles_correct
    (R : Matrix (Fin 3) (Fin 3) ℝ) :
    rotation_matrix_to_euler_angles R =
      if Real.sqrt (R 0 0 * R 0 0 + R 1 0 * R 1 0) < 1e-6 then
        (atan2 (-(R 1 2)) (R 1 1),
         atan2 (-(R 2 0)) (Real.sqrt (R 0 0 * R 0 0 + R 1 0 * R 1 0)),
         0)
      else
        (atan2 (R 2 1) (R 2 2),
         atan2 (-(R 2 0)) (Real.sqrt (R 0 0 * R 0 0 + R 1 0 * R 1 0)),
         atan2 (R 1 0) (R 0 0)) := rfl

/-- Left-cancel a product against a known left inverse. -/
theorem mul_cancel_left {A B X : Matrix (Fin 4) (Fin 4) ℝ} (h : A * B = 1) :
    A * (B * X) = X := by
  rw [← Matrix.mul_assoc, h, Matrix.one_mul]

/-- The translation by `-v` is a left inverse of the translation by `v`. -/
theorem translationM_left_inv (v : Fin 3 → ℝ) :
    translationM (-v) * translationM v = 1 := by
  ext i j
  fin_cases i <;> fin_cases j <;>
    simp [translationM, Matrix.mul_apply, Fin.sum_univ_succ, Matrix.one_apply]

/-- The transpose of the roll matrix is a left inverse. -/
theorem rollM_left_inv (a : ℝ) : (rollM a).transpose * rollM a = 1 := by
  ext i j
  fin_cases i <;> fin_cases j <;>
    simp [rollM, Matrix.mul_apply, Fin.sum_univ_succ, Matrix.one_apply,
      Matrix.transpose_apply] <;>
    nlinarith [Real.sin_sq_add_cos_sq a]

/-- The transpose of the pitch matrix is a left inverse. -/
theorem pitchM_left_inv (a : ℝ) : (pitchM a).transpose * pitchM a = 1 := by
  ext i j
  fin_cases i <;> fin_cases j <;>
    simp [pitchM, Matrix.mul_apply, Fin.sum_univ_succ, Matrix.one_apply,
      Matrix.transpose_apply] <;>
    nlinarith [Real.sin_sq_add_cos_sq a]

/-- The transpose of the yaw matrix is a left inverse. -/
theorem yawM_left_inv (a : ℝ) : (yawM a).transpose * yawM a = 1 := by
  ext i j
  fin_cases i <;> fin_cases j <;>
    simp [yawM, Matrix.mul_apply, Fin.sum_univ_succ, Matrix.one_apply,
      Matrix.transpose_apply] <;>
    nlinarith [Real.sin_sq_add_cos_sq a]

/-- An explicit left inverse of `origin_and_rpy_to_transform`. -/
theorem origin_and_rpy_to_transform_left_inv
    (origin rpy : Fin 3 → ℝ) :
    ((rollM (rpy 0)).transpose *
      ((pitchM (rpy 1)).transpose *
        ((yawM (rpy 2)).transpose * translationM (-origin)))) *
      origin_and_rpy_to_transform origin rpy = 1 := by
  simp only [origin_and_rpy_to_transform, Matrix.mul_assoc]
  rw [mul_cancel_left (translationM_left_inv origin),
    mul_cancel_left (yawM_left_inv (rpy 2)),
    mul_cancel_left (pitchM_left_inv (rpy 1)),
    rollM_left_inv (rpy 0)]

/-- C6: for every origin and rpy, `inv_tf` of the built transform times the
transform itself is the 4×4 identity. -/
theorem inv_tf_origin_and_rpy (origin rpy : Fin 3 → ℝ) :
    inv_tf (origin_and_rpy_to_transform origin rpy) *
      origin_and_rpy_to_transform origin rpy = 1 := by
  rw [inv_tf,
    Matrix.inv_eq_left_inv (origin_and_rpy_to_transform_left_inv origin rpy)]
  exact origin_and_rpy_to_transform_left_inv origin rpy

/-- The cosine of `atan2 y x` for `(x, y) ≠ (0, 0)`. -/
theorem atan2_cos (y x : ℝ) (hne : ¬(x = 0 ∧ y = 0)) :
    Real.cos (atan2 y x) = x / Real.sqrt (x * x + y * y) := by
  have hz : (⟨x, y⟩ : ℂ) ≠ 0 := by
    intro hc
    rw [Complex.ext_iff] at hc
    simp only [Complex.zero_re, Complex.zero_im] at hc
    exact hne hc
  rw [atan2, Complex.cos_arg hz, Complex.abs_apply, Complex.normSq_mk]

/-- The sine of `atan2 y x` (also valid at the origin). -/
theorem atan2_sin (y x : ℝ) :
    Real.sin (atan2 y x) = y / Real.sqrt (x * x + y * y) := by
  rw [atan2, Complex.sin_arg, Complex.abs_apply, Complex.normSq_mk]

/-- The product `pitch @ roll` written out entrywise. -/
theorem pitch_roll_mul (x y : ℝ) :
    pitchM y * rollM x =
    !![Real.cos y, Real.sin y * Real.sin x, Real.sin y * Real.cos x, 0;
       0, Real.cos x, -Real.sin x, 0;
       -Real.sin y, Real.cos y * Real.sin x, Real.cos y * Real.cos x, 0;
       0, 0, 0, 1] := by
  ext i j
  fin_cases i <;> fin_cases j <;>
    simp [pitchM, rollM, Matrix.mul_apply, Fin.sum_univ_succ,
      Matrix.vecHead, Matrix.vecTail, Function.comp]

/-- The combined rotation `yaw @ (pitch @ roll)` written out entrywise. -/
theorem yaw_pitch_roll_mul (x y z : ℝ) :
    yawM z * (pitchM y * rollM x) =
    !![Real.cos z * Real.cos y,
       Real.cos z * Real.sin y * Real.sin x - Real.sin z * Real.cos x,
       Real.cos z * Real.sin y * Real.cos x + Real.sin z * Real.sin x, 0;
       Real.sin z * Real.cos y,
       Real.sin z * Real.sin y * Real.sin x + Real.cos z * Real.cos x,
       Real.sin z * Real.sin y * Real.cos x - Real.cos z * Real.sin x, 0;
       -Real.sin y, Real.cos y * Real.sin x, Real.cos y * Real.cos x, 0;
       0, 0, 0, 1] := by
  rw [pitch_roll_mul]
  ext i j
  fin_cases i <;> fin_cases j <;>
    simp [yawM, Matrix.mul_apply, Fin.sum_univ_succ,
      Matrix.vecHead, Matrix.vecTail, Function.comp] <;> ring

/-- Translating by the zero vector is the identity transform. -/
theorem translationM_zero : translationM (fun _ => 0) = 1 := by
  ext i j
  fin_cases i <;> fin_cases j <;>
    simp [translationM, Matrix.one_apply, Matrix.vecHead, Matrix.vecTail]

/-- The top-left 3×3 rotation block of a homogeneous transform. -/
def rotationBlock (T : Matrix (Fin 4) (Fin 4) ℝ) : Matrix (Fin 3) (Fin 3) ℝ :=
  Matrix.of ![![T 0 0, T 0 1, T 0 2],
              ![T 1 0, T 1 1, T 1 2],
              ![T 2 0, T 2 1, T 2 2]]

/-- C5: for every orthonormal matrix `R` with determinant 1 outside the
singular configuration (`1e-6 ≤ sy`), feeding the Euler angles extracted by
`rotation_matrix_to_euler_angles` back into `origin_and_rpy_to_transform`
with origin `(0,0,0)` reproduces `R` exactly as the rotation block of the
resulting transform. -/
theorem euler_roundtrip (R : Matrix (Fin 3) (Fin 3) ℝ)
    (horth : R.transpose * R = 1) (hdet : R.det = 1)
    (hsy : 1e-6 ≤ Real.sqrt (R 0 0 * R 0 0 + R 1 0 * R 1 0)) :
    rotationBlock
      (origin_and_rpy_to_transform (fun _ => 0)
        ![(rotation_matrix_to_euler_angles R).1,
          (rotation_matrix_to_euler_angles R).2.1,
          (rotation_matrix_to_euler_angles R).2.2]) = R := by
  set s := Real.sqrt (R 0 0 * R 0 0 + R 1 0 * R 1 0) with hs_def
  have hs_pos : 0 < s := lt_of_lt_of_le (by norm_num) hsy
  have hs_ne : s ≠ 0 := ne_of_gt hs_pos
  have hnotlt : ¬ s < 1e-6 := not_lt.mpr hsy
  have heuler : rotation_matrix_to_euler_angles R =
      (atan2 (R 2 1) (R 2 2), atan2 (-(R 2 0)) s, atan2 (R 1 0) (R 0 0)) := by
    simp only [rotation_matrix_to_euler_angles]
    rw [← hs_def, if_neg hnotlt]
  rw [heuler]
  -- scalar consequences of orthonormality and det = 1
  have horth2 : R * R.transpose = 1 := Matrix.mul_eq_one_comm.mp horth
  have e00 : R 0 0 * R 0 0 + R 1 0 * R 1 0 + R 2 0 * R 2 0 = 1 := by
    have t := congrFun (congrFun horth 0) 0
    simp [Matrix.mul_apply, Fin.sum_univ_three, Matrix.transpose_apply,
      Matrix.one_apply] at t
    linarith
  have e01 : R 0 0 * R 0 1 + R 1 0 * R 1 1 + R 2 0 * R 2 1 = 0 := by
    have t := congrFun (congrFun horth 0) 1
    simp [Matrix.mul_apply, Fin.sum_univ_three, Matrix.transpose_apply,
      Matrix.one_apply] at t
    linarith
  have e02 : R 0 0 * R 0 2 + R 1 0 * R 1 2 + R 2 0 * R 2 2 = 0 := by
    have t := congrFun (congrFun horth 0) 2
    simp [Matrix.mul_apply, Fin.sum_univ_three, Matrix.transpose_apply,
      Matrix.one_apply] at t
    linarith
  have e11 : R 0 1 * R 0 1 + R 1 1 * R 1 1 + R 2 1 * R 2 1 = 1 := by
    have t := congrFun (congrFun horth 1) 1
    simp [Matrix.mul_apply, Fin.sum_univ_three, Matrix.transpose_apply,
      Matrix.one_apply] at t
    linarith
  have e12 : R 0 1 * R 0 2 + R 1 1 * R 1 2 + R 2 1 * R 2 2 = 0 := by
    have t := congrFun (congrFun horth 1) 2
    simp [Matrix.mul_apply, Fin.sum_univ_three, Matrix.transpose_apply,
      Matrix.one_apply] at t
    linarith
  have e22 : R 0 2 * R 0 2 + R 1 2 * R 1 2 + R 2 2 * R 2 2 = 1 := by
    have t := congrFun (congrFun horth 2) 2
    simp [Matrix.mul_apply, Fin.sum_univ_three, Matrix.transpose_apply,
      Matrix.one_apply] at t
    linarith
  have r22 : R 2 0 * R 2 0 + R 2 1 * R 2 1 + R 2 2 * R 2 2 = 1 := by
    have t := congrFun (congrFun horth2 2) 2
    simp [Matrix.mul_apply, Fin.sum_univ_three, Matrix.transpose_apply,
      Matrix.one_apply] at t
    linarith
  have hd : R 0 0 * R 1 1 * R 2 2 - R 0 0 * R 1 2 * R 2 1
      - R 0 1 * R 1 0 * R 2 2 + R 0 1 * R 1 2 * R 2 0
      + R 0 2 * R 1 0 * R 2 1 - R 0 2 * R 1 1 * R 2 0 = 1 := by
    rw [Matrix.det_fin_three] at hdet
    linarith
  have cof_i : R 2 2 = R 0 0 * R 1 1 - R 0 1 * R 1 0 := by
    linear_combination (R 0 1 * R 1 2 - R 0 2 * R 1 1) * e02 +
      (R 0 2 * R 1 0 - R 0 0 * R 1 2) * e12 +
      (R 0 0 * R 1 1 - R 0 1 * R 1 0) * e22 + (-(R 2 2)) * hd
  have cof_h : R 2 1 = R 0 2 * R 1 0 - R 0 0 * R 1 2 := by
    linear_combination (R 0 1 * R 1 2 - R 0 2 * R 1 1) * e01 +
      (R 0 2 * R 1 0 - R 0 0 * R 1 2) * e11 +
      (R 0 0 * R 1 1 - R 0 1 * R 1 0) * e12 + (-(R 2 1)) * hd
  have hs2 : s * s = R 0 0 * R 0 0 + R 1 0 * R 1 0 := by
    rw [hs_def]
    exact Real.mul_self_sqrt
      (by nlinarith [mul_self_nonneg (R 0 0), mul_self_nonneg (R 1 0)])
  have hih : R 2 2 * R 2 2 + R 2 1 * R 2 1 = s * s := by
    linear_combination r22 - e00 - hs2
  -- the six trigonometric values
  have hne_z : ¬(R 0 0 = 0 ∧ R 1 0 = 0) := by
    rintro ⟨h1, h2⟩
    apply hs_ne
    rw [hs_def, h1, h2]
    simp
  have hne_x : ¬(R 2 2 = 0 ∧ R 2 1 = 0) := by
    rintro ⟨h1, h2⟩
    apply hs_ne
    refine mul_self_eq_zero.mp ?_
    rw [← hih, h1, h2]
    ring
  have hcz : Real.cos (atan2 (R 1 0) (R 0 0)) = R 0 0 / s := by
    rw [atan2_cos _ _ hne_z, ← hs_def]
  have hsz : Real.sin (atan2 (R 1 0) (R 0 0)) = R 1 0 / s := by
    rw [atan2_sin, ← hs_def]
  have hsum1 : s * s + -(R 2 0) * -(R 2 0) = 1 := by
    linear_combination hs2 + e00
  have hcy : Real.cos (atan2 (-(R 2 0)) s) = s := by
    rw [atan2_cos _ _ (fun hc => hs_ne hc.1), hsum1, Real.sqrt_one, div_one]
  have hsy2 : Real.sin (atan2 (-(R 2 0)) s) = -(R 2 0) := by
    rw [atan2_sin, hsum1, Real.sqrt_one, div_one]
  have hcx : Real.cos (atan2 (R 2 1) (R 2 2)) = R 2 2 / s := by
    rw [atan2_cos _ _ hne_x, hih, Real.sqrt_mul_self hs_pos.le]
  have hsx : Real.sin (atan2 (R 2 1) (R 2 2)) = R 2 1 / s := by
    rw [atan2_sin, hih, Real.sqrt_mul_self hs_pos.le]
  have hbig : origin_and_rpy_to_transform (fun _ => 0)
      ![atan2 (R 2 1) (R 2 2), atan2 (-(R 2 0)) s, atan2 (R 1 0) (R 0 0)] =
      yawM (atan2 (R 1 0) (R 0 0)) *
        (pitchM (atan2 (-(R 2 0)) s) * rollM (atan2 (R 2 1) (R 2 2))) := by
    rw [origin_and_rpy_to_transform, translationM_zero, Matrix.one_mul]
    rfl
  rw [hbig, yaw_pitch_roll_mul]
  ext i j
  fin_cases i <;> fin_cases j <;> simp [rotationBlock] <;>
    simp only [hcz, hsz, hcy, hsy2, hcx, hsx] <;> field_simp
  · linear_combination (s * s) * (-(R 0 0)) * e01 +
      (s * s) * (-(R 1 0)) * cof_i + (s * s) * (-(R 0 1)) * hs2
  · linear_combination (s * s) * (-(R 0 0)) * e02 +
      (s * s) * (R 1 0) * cof_h + (s * s) * (-(R 0 2)) * hs2
  · linear_combination (s * s) * (-(R 1 0)) * e01 +
      (s * s) * (R 0 0) * cof_i + (s * s) * (-(R 1 1)) * hs2
  · linear_combination (s * s) * (-(R 1 0)) * e02 +
      (s * s) * (-(R 0 0)) * cof_h + (s * s) * (-(R 1 2)) * hs2

/-- Witness for C5 at the identity rotation. -/
theorem euler_roundtrip_witness :
    ((1 : Matrix (Fin 3) (Fin 3) ℝ).transpose * 1 = 1 ∧
     (1 : Matrix (Fin 3) (Fin 3) ℝ).det = 1 ∧
     1e-6 ≤ Real.sqrt ((1 : Matrix (Fin 3) (Fin 3) ℝ) 0 0 *
       (1 : Matrix (Fin 3) (Fin 3) ℝ) 0 0 +
       (1 : Matrix (Fin 3) (Fin 3) ℝ) 1 0 *
       (1 : Matrix (Fin 3) (Fin 3) ℝ) 1 0)) ∧
    rotationBlock
      (origin_and_rpy_to_transform (fun _ => 0)
        ![(rotation_matrix_to_euler_angles 1).1,
          (rotation_matrix_to_euler_angles 1).2.1,
          (rotation_matrix_to_euler_angles 1).2.2]) = 1 := by
  have h1 : (1 : Matrix (Fin 3) (Fin 3) ℝ).transpose * 1 = 1 := by simp
  have h2 : (1 : Matrix (Fin 3) (Fin 3) ℝ).det = 1 := Matrix.det_one
  have h3 : 1e-6 ≤ Real.sqrt ((1 : Matrix (Fin 3) (Fin 3) ℝ) 0 0 *
      (1 : Matrix (Fin 3) (Fin 3) ℝ) 0 0 +
      (1 : Matrix (Fin 3) (Fin 3) ℝ) 1 0 *
      (1 : Matrix (Fin 3) (Fin 3) ℝ) 1 0) := by
    have he : ((1 : Matrix (Fin 3) (Fin 3) ℝ) 0 0 *
        (1 : Matrix (Fin 3) (Fin 3) ℝ) 0 0 +
        (1 : Matrix (Fin 3) (Fin 3) ℝ) 1 0 *
        (1 : Matrix (Fin 3) (Fin 3) ℝ) 1 0) = 1 := by
      norm_num [Matrix.one_apply]
    rw [he, Real.sqrt_one]
    norm_num
  exact ⟨⟨h1, h2, h3⟩, euler_roundtrip 1 h1 h2 h3⟩
